import Mathlib

set_option linter.unusedVariables false

/-!
Verification development for the `Email-Templates` repository's crawler
(`src/wireframes-reader.ts`, class `WireframesReader`).

The crawler is shallowly embedded: JavaScript strings are Lean `String`s and
the JS string primitives used by the source (`includes`, `startsWith`,
`endsWith`, `toLowerCase`, `trim`, `substring`, `split`) are modelled as
executable functions on the character list `String.data`.  The HTML/DOM
capability (cheerio) is modelled abstractly: a fetched page is a structure
holding the extracted anchor elements and image elements together with the
attribute/text data the source reads from them.  The HTTP capability (axios)
is a parameter `net : String → FetchResult`.  The recursive crawl
`explorePage` is embedded with an explicit fuel parameter so that every
definition is a computable total function; the fuel-stabilisation theorem
below accounts for termination on finite link graphs.

A `fetchLog` field records every invocation of the HTTP fetch (`axios.get`),
appended exactly at the point where the source issues the request.
-/

/-- Is `sub` a contiguous segment of the second list? -/
def isInfixOfChars (sub : List Char) : List Char → Bool
  | [] => sub.isEmpty
  | c :: rest => sub.isPrefixOf (c :: rest) || isInfixOfChars sub rest

/-- JS `s.includes(sub)`: substring containment. -/
def jsIncludes (s sub : String) : Bool := isInfixOfChars sub.data s.data

/-- JS `s.startsWith(pre)`. -/
def jsStartsWith (s pre : String) : Bool := pre.data.isPrefixOf s.data

/-- JS `s.endsWith(suf)`. -/
def jsEndsWith (s suf : String) : Bool := suf.data.isSuffixOf s.data

/-- JS `s.toLowerCase()` (ASCII letters, as used by the source's URL data). -/
def jsToLower (s : String) : String := ⟨s.data.map Char.toLower⟩

/-- Whitespace recognised by JS `trim`. -/
def jsIsSpace (c : Char) : Bool := c = ' ' || c = '\t' || c = '\n' || c = '\r'

/-- JS `s.trim()`. -/
def jsTrim (s : String) : String :=
  ⟨((s.data.dropWhile jsIsSpace).reverse.dropWhile jsIsSpace).reverse⟩

/-- JS `s.substring(0, n)`. -/
def jsSubstring0 (n : Nat) (s : String) : String := ⟨s.data.take n⟩

/-- JS `a || b` on strings: the empty string is falsy. -/
def jsOrS (a b : String) : String := if a = "" then b else a

/-- JS `a || d` where `a` is a possibly-`undefined` string
(`none` models `undefined`); the empty string is falsy. -/
def jsOrDefault (a : Option String) (d : String) : String :=
  match a with
  | none => d
  | some s => if s = "" then d else s

/-- JS truthiness of a possibly-`undefined` string attribute:
`undefined` and `""` are falsy. -/
def jsTruthy : Option String → Option String
  | none => none
  | some s => if s = "" then none else some s

/-- JS `s.split(sep)` on characters (every occurrence splits; leading,
trailing and adjacent separators produce empty fields, as in JS). -/
def splitOnChar (sep : Char) : List Char → List (List Char)
  | [] => [[]]
  | c :: rest =>
    match splitOnChar sep rest with
    | [] => [[]]
    | g :: gs => if c = sep then [] :: g :: gs else (c :: g) :: gs

/-- One unanchored step of the regexes `pat` + `\d+`: does `s` start with
`pat` immediately followed by a digit? -/
def patDigitAt (pat s : List Char) : Bool :=
  pat.isPrefixOf s &&
    (match s.drop pat.length with
     | c :: _ => c.isDigit
     | [] => false)

/-- Unanchored search for `pat` followed by at least one digit, i.e. the
test of a regex of the form `/pat\d+/`. -/
def patDigitSearch (pat : List Char) : List Char → Bool
  | [] => false
  | c :: rest => patDigitAt pat (c :: rest) || patDigitSearch pat rest

/-- `/pat\d+/.test(s)` for a literal `pat`. -/
def regexTestKeyDigits (pat s : String) : Bool := patDigitSearch pat.data s.data

/-- The regex `/\/([^\/]+)\/$/` of `isDirectory`:
the string ends in `/<nonempty segment without slash>/`. -/
def dirSlashPattern (s : String) : Bool :=
  match s.data.reverse with
  | '/' :: rest =>
    decide ((rest.takeWhile (fun c => c ≠ '/')).length ≠ 0) &&
      (match rest.dropWhile (fun c => c ≠ '/') with
       | '/' :: _ => true
       | _ => false)
  | _ => false

/-- `[...new Set(links)]`: deduplication keeping first occurrences. -/
def jsSetDedupGo (seen : List String) : List String → List String
  | [] => []
  | x :: xs => if x ∈ seen then jsSetDedupGo seen xs else x :: jsSetDedupGo (x :: seen) xs

/-- `[...new Set(links)]` as used at the end of `findLinksToExplore`. -/
def jsSetDedup (l : List String) : List String := jsSetDedupGo [] l

/-- The host part of a URL string: the text between the first `://` and the
next `/` (empty when the URL has no `://`).  Used only to state the
spec-level notion of "host" for the domain-isolation claims. -/
def hostOf (s : String) : String :=
  ⟨(hostOfGo s.data).takeWhile (fun c => c ≠ '/')⟩
where
  /-- Drop through the first occurrence of `://`. -/
  hostOfGo : List Char → List Char
    | ':' :: '/' :: '/' :: rest => rest
    | _ :: rest => hostOfGo rest
    | [] => []

/-! ## The source's configuration and leaf functions -/

/-- `private baseUrl` of class `WireframesReader`. -/
def baseUrl : String := "https://gytx.dev/wareframes/pog_up_wareframes/"

/-- `resolveUrl(url, baseUrl?)` of the source:
scheme-prefixed URLs pass through, root-relative URLs are joined onto the
site origin, anything else is concatenated onto `baseUrl || this.baseUrl`
(JS falsiness: an `undefined` or empty base falls back to the configured
root). -/
def resolveUrl (url : String) (base : Option String) : String :=
  if jsStartsWith url "http" then url
  else if jsStartsWith url "/" then "https://gytx.dev" ++ url
  else jsOrDefault base baseUrl ++ url

/-- `wireframeExtensions` of `isWireframeFile`. -/
def wireframeExtensions : List String := [".png", ".jpg", ".jpeg", ".gif", ".svg", ".pdf"]

/-- `wireframeKeywords` of `isWireframeFile`. -/
def wireframeKeywords : List String := ["wireframe", "mockup", "design", "ui", "ux", "screen"]

/-- `isWireframeFile(url)`: extension match on the lowercased URL, or keyword
match (the source's keyword lambda also tests `includes('pog')`). -/
def isWireframeFile (url : String) : Bool :=
  let lowerUrl := jsToLower url
  let hasValidExtension := wireframeExtensions.any (fun ext => jsIncludes lowerUrl ext)
  let hasWireframeKeyword := wireframeKeywords.any (fun keyword =>
    jsIncludes lowerUrl keyword || jsIncludes lowerUrl "pog")
  hasValidExtension || hasWireframeKeyword

/-- The three file kinds of the source (`'image' | 'page' | 'unknown'`);
the spec names them `Image`, `Document`, `Unknown`. -/
inductive FileType where
  | image
  | page
  | unknown
deriving DecidableEq, Repr

/-- `getFileType(url)`. -/
def getFileType (url : String) : FileType :=
  let lowerUrl := jsToLower url
  if jsIncludes lowerUrl ".png" || jsIncludes lowerUrl ".jpg" || jsIncludes lowerUrl ".jpeg" ||
      jsIncludes lowerUrl ".gif" || jsIncludes lowerUrl ".svg" then
    FileType.image
  else if jsIncludes lowerUrl ".pdf" then
    FileType.page
  else
    FileType.unknown

/-- `extractFileName(url)`: last `/`-separated part, `'wireframe'` when that
part is empty. -/
def extractFileName (url : String) : String :=
  let parts := (splitOnChar '/' url.data).map (fun l => String.mk l)
  jsOrS (parts.getLastD "") "wireframe"

/-- `extractDescription(element)`: first 100 characters of the parent text,
else of the grandparent text, else the empty string. -/
def extractDescription (parentText grandParentText : String) : String :=
  jsOrS (jsSubstring0 100 parentText) (jsOrS (jsSubstring0 100 grandParentText) "")

/-- `directFileExtensions` of `shouldExploreLink`. -/
def directFileExtensions : List String :=
  [".png", ".jpg", ".jpeg", ".gif", ".svg", ".pdf", ".zip", ".rar", ".doc", ".docx", ".txt"]

/-- `webPageExtensions` of `isWebPage`. -/
def webPageExtensions : List String := [".html", ".htm", ".php", ".asp", ".aspx", ".jsp"]

/-- `isWebPage(url)`. -/
def isWebPage (url : String) : Bool :=
  webPageExtensions.any (fun ext => jsIncludes (jsToLower url) ext)

/-- `isDirectory(url)`: the source builds a mixed array of booleans and a
regex-match result and tests `some(pattern => pattern === true || pattern)`,
i.e. the truthiness disjunction of the five patterns. -/
def isDirectory (url : String) : Bool :=
  jsEndsWith url "/" ||
  jsIncludes url "/wareframes/" ||
  jsIncludes url "/pog_up_wareframes/" ||
  (!jsIncludes url "." && jsIncludes url "/") ||
  dirSlashPattern url

/-- `shouldExploreLink(url, currentUrl)` (the second parameter is unused by
the source's body). -/
def shouldExploreLink (url : String) (currentUrl : String) : Bool :=
  if !jsIncludes url "gytx.dev" then false
  else if directFileExtensions.any (fun ext => jsIncludes (jsToLower url) ext) then false
  else isDirectory url || isWebPage url

/-- `isValidPaginationLink(url, currentUrl)`. -/
def isValidPaginationLink (url : String) (currentUrl : String) : Bool :=
  if !jsIncludes url "gytx.dev" then false
  else if url = currentUrl then false
  else
    regexTestKeyDigits "page=" url || regexTestKeyDigits "p=" url ||
    regexTestKeyDigits "offset=" url || regexTestKeyDigits "/page/" url ||
    regexTestKeyDigits "/p/" url

/-! ## The DOM model

A fetched page is modelled by the data the source reads out of the cheerio
handle: for each `<a>` element its `href` attribute (`none` when absent), its
text content, whether it sits inside a `.pagination`/`.pager`/`.page-nav`
container (the three structural pagination selectors), and the parent /
grandparent text used by `extractDescription`; for each `<img>` element its
`src` and `alt` attributes and the same context texts. -/

structure AnchorEl where
  href : Option String
  text : String
  inPagination : Bool
  inPager : Bool
  inPageNav : Bool
  parentText : String
  grandParentText : String
deriving DecidableEq, Repr

structure ImgEl where
  src : Option String
  alt : Option String
  parentText : String
  grandParentText : String
deriving DecidableEq, Repr

structure Page where
  anchors : List AnchorEl
  images : List ImgEl
deriving DecidableEq, Repr

/-- The record built by `parseWireframes` (interface `WireframeInfo`; the
optional `description` is always set by the source, possibly to `""`). -/
structure WireframeInfo where
  name : String
  url : String
  type : FileType
  description : String
deriving DecidableEq, Repr

/-- The record pushed by the `$('a[href*="."]')` loop of `parseWireframes`
for an anchor with attribute value `href`. -/
def mkAnchorRecord (a : AnchorEl) (href : String) (sourceUrl : Option String) : WireframeInfo :=
  { name := jsOrS (jsTrim a.text) (extractFileName href)
    url := resolveUrl href sourceUrl
    type := getFileType href
    description := extractDescription (jsTrim a.parentText) (jsTrim a.grandParentText) }

/-- The record pushed by the `$('img')` loop of `parseWireframes` for an
image with attribute value `src`: its `type` is the constant `'image'`. -/
def mkImgRecord (img : ImgEl) (src : String) (sourceUrl : Option String) : WireframeInfo :=
  { name := jsOrS (jsOrDefault img.alt "") (extractFileName src)
    url := resolveUrl src sourceUrl
    type := FileType.image
    description := extractDescription (jsTrim img.parentText) (jsTrim img.grandParentText) }

/-- The `$('a[href*="."]')` loop of `parseWireframes`: anchors whose `href`
attribute contains a `.`, kept when `isWireframeFile(href)`. -/
def parseWireframesAnchors (page : Page) (sourceUrl : Option String) : List WireframeInfo :=
  page.anchors.filterMap (fun a =>
    match a.href with
    | none => none
    | some href =>
      if jsIncludes href "." then
        if isWireframeFile href then some (mkAnchorRecord a href sourceUrl) else none
      else none)

/-- The `$('img')` loop of `parseWireframes`: every image whose `src` is
truthy and passes `isWireframeFile`. -/
def parseWireframesImgs (page : Page) (sourceUrl : Option String) : List WireframeInfo :=
  page.images.filterMap (fun img =>
    match jsTruthy img.src with
    | none => none
    | some src =>
      if isWireframeFile src then some (mkImgRecord img src sourceUrl) else none)

/-- `parseWireframes(html, sourceUrl?)`: the anchor loop followed by the
image loop, pushing into one array. -/
def parseWireframes (page : Page) (sourceUrl : Option String) : List WireframeInfo :=
  parseWireframesAnchors page sourceUrl ++ parseWireframesImgs page sourceUrl

/-- The twelve selectors of `findPaginationLinks`, in source order, as
predicates on an anchor element.  `a[href*=...]` tests the attribute value,
`.pagination a` / `.pager a` / `.page-nav a` test the container flags, and
`a:contains(...)` tests the text content. -/
def paginationSelectors : List (AnchorEl → Bool) :=
  [ fun a => match a.href with | some h => jsIncludes h "page=" | none => false
  , fun a => match a.href with | some h => jsIncludes h "p=" | none => false
  , fun a => match a.href with | some h => jsIncludes h "offset=" | none => false
  , fun a => a.inPagination
  , fun a => a.inPager
  , fun a => a.inPageNav
  , fun a => jsIncludes a.text "Suivant"
  , fun a => jsIncludes a.text "Précédent"
  , fun a => jsIncludes a.text "Next"
  , fun a => jsIncludes a.text "Previous"
  , fun a => match a.href with | some h => jsIncludes h "&page" | none => false
  , fun a => match a.href with | some h => jsIncludes h "?page" | none => false ]

/-- `findPaginationLinks($, currentUrl)`: for each selector in order, each
matching anchor with a truthy `href` contributes its resolved URL when
`isValidPaginationLink` accepts it. -/
def findPaginationLinks (page : Page) (currentUrl : String) : List String :=
  (paginationSelectors.map (fun sel =>
    (page.anchors.filter sel).filterMap (fun a =>
      match jsTruthy a.href with
      | none => none
      | some href =>
        let resolvedUrl := resolveUrl href (some currentUrl)
        if isValidPaginationLink resolvedUrl currentUrl then some resolvedUrl else none))).flatten

/-- `findLinksToExplore(html, currentUrl)`: the `a[href]` loop filtered by
`shouldExploreLink`, then the pagination links, then `[...new Set(links)]`. -/
def findLinksToExplore (page : Page) (currentUrl : String) : List String :=
  let links := page.anchors.filterMap (fun a =>
    match jsTruthy a.href with
    | none => none
    | some href =>
      let resolvedUrl := resolveUrl href (some currentUrl)
      if shouldExploreLink resolvedUrl currentUrl then some resolvedUrl else none)
  jsSetDedup (links ++ findPaginationLinks page currentUrl)

/-! ## The crawl engine -/

/-- Outcome of the HTTP capability (`axios.get`): a status with a parsed
body, or a transport error / timeout (a rejected promise). -/
inductive FetchResult where
  | ok (status : Nat) (page : Page)
  | err
deriving DecidableEq

/-- The mutable state of one `WireframesReader` run: `visitedUrls` and
`allWireframes` are the instance fields of the class; `fetchLog` is the
observation of every HTTP fetch issued, in order. -/
structure CrawlState where
  visitedUrls : List String
  allWireframes : List WireframeInfo
  fetchLog : List String
deriving DecidableEq, Repr

/-- State right after `this.visitedUrls.add(url)` and the `axios.get(url)`
call: `url` is marked visited and the fetch is logged. -/
def visitAndFetch (url : String) (s : CrawlState) : CrawlState :=
  { s with visitedUrls := url :: s.visitedUrls, fetchLog := s.fetchLog ++ [url] }

/-- The `for (const link of linksToExplore)` loop of `explorePage`:
each link not yet visited is explored with the given one-URL explorer. -/
def exploreList (explore1 : String → CrawlState → CrawlState) :
    List String → CrawlState → CrawlState
  | [], s => s
  | link :: links, s =>
    exploreList explore1 links (if link ∈ s.visitedUrls then s else explore1 link s)

/-- `explorePage(url)`, fuelled.  Already-visited URLs return immediately;
otherwise the URL is marked visited, fetched, and on a 200 response the
page's wireframes are appended and the discovered links explored in order.
A transport error or non-200 status returns after the fetch (the `catch`
and the `status !== 200` early return). -/
def explorePage (net : String → FetchResult) : Nat → String → CrawlState → CrawlState
  | 0 => fun _ s => s
  | fuel + 1 => fun url s =>
    if url ∈ s.visitedUrls then s
    else
      let s1 := visitAndFetch url s
      match net url with
      | FetchResult.err => s1
      | FetchResult.ok status page =>
        if status ≠ 200 then s1
        else
          let s2 := { s1 with
            allWireframes := s1.allWireframes ++ parseWireframes page (some url) }
          exploreList (explorePage net fuel) (findLinksToExplore page url) s2

/-- The initial state of a run (fresh `WireframesReader`). -/
def initialState : CrawlState := { visitedUrls := [], allWireframes := [], fetchLog := [] }

/-- `exploreAllPages()`: explore from the configured root; the source
returns `this.allWireframes`, here the whole final state is kept. -/
def exploreAllPages (net : String → FetchResult) (fuel : Nat) : CrawlState :=
  explorePage net fuel baseUrl initialState

/-! ## Predicates used by the invariant proofs -/

/-- Every fetch was of a then-unvisited URL: the log is duplicate-free and
below the visited set. -/
def FetchInv (s : CrawlState) : Prop :=
  s.fetchLog.Nodup ∧ ∀ u ∈ s.fetchLog, u ∈ s.visitedUrls

/-- Every URL in the fetch log contains the substring `gytx.dev`. -/
def DomInv (s : CrawlState) : Prop :=
  ∀ u ∈ s.fetchLog, jsIncludes u "gytx.dev" = true

/-- URLs of the finite universe `U` not yet visited. -/
def remCard (U : Finset String) (s : CrawlState) : Nat :=
  (U.filter (fun u => u ∉ s.visitedUrls)).card

/-- The link graph served by `net` stays inside the finite universe `U`:
every link discovered on a successfully fetched page lies in `U`. -/
def NetBounded (net : String → FetchResult) (U : Finset String) : Prop :=
  ∀ url page, net url = FetchResult.ok 200 page →
    ∀ l ∈ findLinksToExplore page url, l ∈ U

/-! ## Concrete fixtures for witnesses and counterexamples -/

/-- A page with no anchors and no images. -/
def emptyPage : Page := { anchors := [], images := [] }

/-- A network serving exactly the root page, empty. -/
def singleNet : String → FetchResult := fun u =>
  if u = baseUrl then FetchResult.ok 200 emptyPage else FetchResult.err

/-- The root page links to a host that merely embeds `gytx.dev` as a
substring of a different host. -/
def evilAnchor : AnchorEl :=
  { href := some "https://gytx.dev.evil.com/a/", text := "x", inPagination := false,
    inPager := false, inPageNav := false, parentText := "", grandParentText := "" }

def evilPage : Page := { anchors := [evilAnchor], images := [] }

def evilNet : String → FetchResult := fun u =>
  if u = baseUrl then FetchResult.ok 200 evilPage else FetchResult.err

/-- The root page links to a cross-domain image file. -/
def otherHostAnchor : AnchorEl :=
  { href := some "https://otherhost.com/image.png", text := "pic", inPagination := false,
    inPager := false, inPageNav := false, parentText := "", grandParentText := "" }

def otherHostPage : Page := { anchors := [otherHostAnchor], images := [] }

def otherHostNet : String → FetchResult := fun u =>
  if u = baseUrl then FetchResult.ok 200 otherHostPage else FetchResult.err

/-- The root page shows a PDF through an `<img>` element. -/
def pdfImgEl : ImgEl :=
  { src := some "spec.pdf", alt := some "plan", parentText := "", grandParentText := "" }

def pdfImgPage : Page := { anchors := [], images := [pdfImgEl] }

def pdfImgNet : String → FetchResult := fun u =>
  if u = baseUrl then FetchResult.ok 200 pdfImgPage else FetchResult.err

/-- A page with one anchor whose `href` is both a keyword asset match and a
followable page. -/
def uiHtmlAnchor : AnchorEl :=
  { href := some "ui.html", text := "t", inPagination := false,
    inPager := false, inPageNav := false, parentText := "", grandParentText := "" }

def uiHtmlPage : Page := { anchors := [uiHtmlAnchor], images := [] }

/-- A keyword-matching image source with no `.` in it. -/
def dotlessImgEl : ImgEl :=
  { src := some "ui-screen", alt := none, parentText := "", grandParentText := "" }

/-! ## Step lemmas for the engine -/

theorem explorePage_zero (net : String → FetchResult) (url : String) (s : CrawlState) :
    explorePage net 0 url s = s := rfl

theorem explorePage_visited (net : String → FetchResult) (fuel : Nat) (url : String)
    (s : CrawlState) (h : url ∈ s.visitedUrls) :
    explorePage net fuel url s = s := by
  cases fuel with
  | zero => rfl
  | succ fuel => simp [explorePage, h]

theorem explorePage_err (net : String → FetchResult) (fuel : Nat) (url : String)
    (s : CrawlState) (h : url ∉ s.visitedUrls) (hn : net url = FetchResult.err) :
    explorePage net (fuel + 1) url s = visitAndFetch url s := by
  simp [explorePage, h, hn]

theorem explorePage_badStatus (net : String → FetchResult) (fuel : Nat) (url : String)
    (s : CrawlState) (status : Nat) (page : Page) (h : url ∉ s.visitedUrls)
    (hn : net url = FetchResult.ok status page) (hst : status ≠ 200) :
    explorePage net (fuel + 1) url s = visitAndFetch url s := by
  simp [explorePage, h, hn, hst]

theorem explorePage_ok (net : String → FetchResult) (fuel : Nat) (url : String)
    (s : CrawlState) (page : Page) (h : url ∉ s.visitedUrls)
    (hn : net url = FetchResult.ok 200 page) :
    explorePage net (fuel + 1) url s =
      exploreList (explorePage net fuel) (findLinksToExplore page url)
        { visitAndFetch url s with
          allWireframes := s.allWireframes ++ parseWireframes page (some url) } := by
  simp [explorePage, h, hn, visitAndFetch]

theorem exploreList_nil (f : String → CrawlState → CrawlState) (s : CrawlState) :
    exploreList f [] s = s := rfl

theorem exploreList_cons (f : String → CrawlState → CrawlState) (l : String)
    (ls : List String) (s : CrawlState) :
    exploreList f (l :: ls) s =
      exploreList f ls (if l ∈ s.visitedUrls then s else f l s) := rfl

/-- A state predicate preserved by the one-URL explorer on good URLs is
preserved by the loop over a list of good URLs. -/
theorem exploreList_preserve (P : CrawlState → Prop) (Q : String → Prop)
    (f : String → CrawlState → CrawlState)
    (hf : ∀ l s, Q l → P s → P (f l s)) :
    ∀ ls s, (∀ l ∈ ls, Q l) → P s → P (exploreList f ls s) := by
  intro ls
  induction ls with
  | nil => intro s _ hs; exact hs
  | cons l ls ih =>
    intro s hq hs
    rw [exploreList_cons]
    apply ih _ (fun x hx => hq x (List.mem_cons_of_mem _ hx))
    by_cases hv : l ∈ s.visitedUrls
    · simpa [hv] using hs
    · simpa [hv] using hf l s (hq l (List.mem_cons_self _ _)) hs

theorem exploreList_visited_mono (f : String → CrawlState → CrawlState)
    (hf : ∀ l s, s.visitedUrls ⊆ (f l s).visitedUrls) :
    ∀ ls s, s.visitedUrls ⊆ (exploreList f ls s).visitedUrls := by
  intro ls
  induction ls with
  | nil => intro s x hx; exact hx
  | cons l ls ih =>
    intro s
    rw [exploreList_cons]
    refine List.Subset.trans ?_ (ih _)
    by_cases hv : l ∈ s.visitedUrls
    · simp [hv]
    · simpa [hv] using hf l s

theorem explorePage_visited_mono (net : String → FetchResult) :
    ∀ fuel url s, s.visitedUrls ⊆ (explorePage net fuel url s).visitedUrls := by
  intro fuel
  induction fuel with
  | zero => intro url s x hx; exact hx
  | succ fuel ih =>
    intro url s
    by_cases hv : url ∈ s.visitedUrls
    · rw [explorePage_visited net _ url s hv]
      intro x hx
      exact hx
    · cases hn : net url with
      | err =>
        rw [explorePage_err net fuel url s hv hn]
        intro x hx
        exact List.mem_cons_of_mem _ hx
      | ok status page =>
        by_cases hst : status = 200
        · subst hst
          rw [explorePage_ok net fuel url s page hv hn]
          refine List.Subset.trans ?_ (exploreList_visited_mono _ ih _ _)
          intro x hx
          exact List.mem_cons_of_mem _ hx
        · rw [explorePage_badStatus net fuel url s status page hv hn hst]
          intro x hx
          exact List.mem_cons_of_mem _ hx

/-! ## The fetch-once invariant (claim C1) -/

theorem fetchInv_visitAndFetch (url : String) (s : CrawlState)
    (h : url ∉ s.visitedUrls) (hs : FetchInv s) : FetchInv (visitAndFetch url s) := by
  obtain ⟨hnd, hsub⟩ := hs
  constructor
  · show (s.fetchLog ++ [url]).Nodup
    rw [List.nodup_append]
    refine ⟨hnd, List.nodup_singleton url, ?_⟩
    intro x hx hx1
    rw [List.mem_singleton] at hx1
    exact h (hx1 ▸ hsub x hx)
  · intro u hu
    rw [visitAndFetch] at hu ⊢
    simp only [List.mem_append, List.mem_singleton] at hu
    cases hu with
    | inl hu => exact List.mem_cons_of_mem _ (hsub u hu)
    | inr hu => exact hu ▸ List.mem_cons_self _ _

theorem explorePage_fetchInv (net : String → FetchResult) :
    ∀ fuel url s, FetchInv s → FetchInv (explorePage net fuel url s) := by
  intro fuel
  induction fuel with
  | zero => intro url s hs; exact hs
  | succ fuel ih =>
    intro url s hs
    by_cases hv : url ∈ s.visitedUrls
    · rw [explorePage_visited net _ url s hv]; exact hs
    · cases hn : net url with
      | err => rw [explorePage_err net fuel url s hv hn]; exact fetchInv_visitAndFetch url s hv hs
      | ok status page =>
        by_cases hst : status = 200
        · subst hst
          rw [explorePage_ok net fuel url s page hv hn]
          apply exploreList_preserve FetchInv (fun _ => True) _ (fun l s _ hps => ih l s hps)
          · intro l hl; trivial
          · exact fetchInv_visitAndFetch url s hv hs
        · rw [explorePage_badStatus net fuel url s status page hv hn hst]
          exact fetchInv_visitAndFetch url s hv hs

/-! ## Domain-gate lemmas (claims C3, C4, C8) -/

theorem shouldExploreLink_domain (url currentUrl : String)
    (h : shouldExploreLink url currentUrl = true) : jsIncludes url "gytx.dev" = true := by
  cases hj : jsIncludes url "gytx.dev" with
  | true => rfl
  | false => simp [shouldExploreLink, hj] at h

theorem isValidPaginationLink_domain (url currentUrl : String)
    (h : isValidPaginationLink url currentUrl = true) : jsIncludes url "gytx.dev" = true := by
  cases hj : jsIncludes url "gytx.dev" with
  | true => rfl
  | false => simp [isValidPaginationLink, hj] at h

theorem jsSetDedupGo_subset :
    ∀ (l : List String) (seen : List String) (x : String), x ∈ jsSetDedupGo seen l → x ∈ l := by
  intro l
  induction l with
  | nil => intro seen x h; simp [jsSetDedupGo] at h
  | cons a as ih =>
    intro seen x h
    by_cases hv : a ∈ seen
    · simp only [jsSetDedupGo, if_pos hv] at h
      exact List.mem_cons_of_mem _ (ih _ _ h)
    · simp only [jsSetDedupGo, if_neg hv, List.mem_cons] at h
      cases h with
      | inl h => exact h ▸ List.mem_cons_self _ _
      | inr h => exact List.mem_cons_of_mem _ (ih _ _ h)

theorem jsSetDedup_subset (l : List String) : ∀ x ∈ jsSetDedup l, x ∈ l :=
  fun x hx => jsSetDedupGo_subset l [] x hx

theorem jsSetDedupGo_nodup :
    ∀ (l : List String) (seen : List String),
      (jsSetDedupGo seen l).Nodup ∧ ∀ x ∈ jsSetDedupGo seen l, x ∉ seen := by
  intro l
  induction l with
  | nil => intro seen; constructor <;> simp [jsSetDedupGo]
  | cons a as ih =>
    intro seen
    by_cases hv : a ∈ seen
    · simp only [jsSetDedupGo, if_pos hv]
      exact ih seen
    · simp only [jsSetDedupGo, if_neg hv]
      obtain ⟨hnd, hni⟩ := ih (a :: seen)
      refine ⟨List.nodup_cons.mpr ⟨?_, hnd⟩, ?_⟩
      · intro hmem
        exact hni a hmem (List.mem_cons_self _ _)
      · intro x hx
        rw [List.mem_cons] at hx
        cases hx with
        | inl hx => exact hx ▸ hv
        | inr hx => exact fun hs => hni x hx (List.mem_cons_of_mem _ hs)

theorem jsSetDedup_nodup (l : List String) : (jsSetDedup l).Nodup :=
  (jsSetDedupGo_nodup l []).1

theorem findPaginationLinks_gate (page : Page) (currentUrl : String) :
    ∀ l ∈ findPaginationLinks page currentUrl, isValidPaginationLink l currentUrl = true := by
  intro l hl
  rw [findPaginationLinks, List.mem_flatten] at hl
  obtain ⟨sub, hsub, hmem⟩ := hl
  rw [List.mem_map] at hsub
  obtain ⟨sel, hsel, rfl⟩ := hsub
  rw [List.mem_filterMap] at hmem
  obtain ⟨a, ha, hfa⟩ := hmem
  cases hjt : jsTruthy a.href with
  | none => rw [hjt] at hfa; simp at hfa
  | some href =>
    rw [hjt] at hfa
    simp only at hfa
    by_cases hvp : isValidPaginationLink (resolveUrl href (some currentUrl)) currentUrl = true
    · rw [if_pos hvp] at hfa
      cases hfa
      exact hvp
    · rw [if_neg hvp] at hfa
      simp at hfa

theorem findLinksToExplore_gate (page : Page) (currentUrl : String) :
    ∀ l ∈ findLinksToExplore page currentUrl,
      shouldExploreLink l currentUrl = true ∨ isValidPaginationLink l currentUrl = true := by
  intro l hl
  have hl2 := jsSetDedup_subset _ _ hl
  rw [List.mem_append] at hl2
  cases hl2 with
  | inl h =>
    left
    rw [List.mem_filterMap] at h
    obtain ⟨a, ha, hfa⟩ := h
    cases hjt : jsTruthy a.href with
    | none => rw [hjt] at hfa; simp at hfa
    | some href =>
      rw [hjt] at hfa
      simp only at hfa
      by_cases hse : shouldExploreLink (resolveUrl href (some currentUrl)) currentUrl = true
      · rw [if_pos hse] at hfa
        cases hfa
        exact hse
      · rw [if_neg hse] at hfa
        simp at hfa
  | inr h =>
    right
    exact findPaginationLinks_gate page currentUrl l h

theorem findLinksToExplore_domain (page : Page) (currentUrl : String) :
    ∀ l ∈ findLinksToExplore page currentUrl, jsIncludes l "gytx.dev" = true := by
  intro l hl
  cases findLinksToExplore_gate page currentUrl l hl with
  | inl h => exact shouldExploreLink_domain l currentUrl h
  | inr h => exact isValidPaginationLink_domain l currentUrl h

theorem domInv_visitAndFetch (url : String) (s : CrawlState)
    (hurl : jsIncludes url "gytx.dev" = true) (hs : DomInv s) :
    DomInv (visitAndFetch url s) := by
  intro u hu
  have hu2 : u ∈ s.fetchLog ++ [url] := hu
  rw [List.mem_append, List.mem_singleton] at hu2
  cases hu2 with
  | inl h => exact hs u h
  | inr h => exact h ▸ hurl

theorem explorePage_domInv (net : String → FetchResult) :
    ∀ fuel url s, jsIncludes url "gytx.dev" = true → DomInv s →
      DomInv (explorePage net fuel url s) := by
  intro fuel
  induction fuel with
  | zero => intro url s _ hs; exact hs
  | succ fuel ih =>
    intro url s hurl hs
    by_cases hv : url ∈ s.visitedUrls
    · rw [explorePage_visited net _ url s hv]; exact hs
    · cases hn : net url with
      | err =>
        rw [explorePage_err net fuel url s hv hn]
        exact domInv_visitAndFetch url s hurl hs
      | ok status page =>
        by_cases hst : status = 200
        · subst hst
          rw [explorePage_ok net fuel url s page hv hn]
          apply exploreList_preserve DomInv (fun l => jsIncludes l "gytx.dev" = true) _
            (fun l s hq hps => ih l s hq hps)
          · exact findLinksToExplore_domain page url
          · exact domInv_visitAndFetch url s hurl hs
        · rw [explorePage_badStatus net fuel url s status page hv hn hst]
          exact domInv_visitAndFetch url s hurl hs

/-- Shared helper: in any run, every fetched URL contains `gytx.dev`. -/
theorem fetchLog_domain (net : String → FetchResult) (fuel : Nat) :
    ∀ u ∈ (exploreAllPages net fuel).fetchLog, jsIncludes u "gytx.dev" = true :=
  explorePage_domInv net fuel baseUrl initialState (by decide)
    (fun u hu => absurd hu (List.not_mem_nil u))

/-! ## Fuel stabilisation (claim C2) -/

theorem remCard_mono (U : Finset String) (s t : CrawlState)
    (h : s.visitedUrls ⊆ t.visitedUrls) : remCard U t ≤ remCard U s := by
  apply Finset.card_le_card
  intro x hx
  rw [Finset.mem_filter] at hx ⊢
  exact ⟨hx.1, fun hmem => hx.2 (h hmem)⟩

theorem remCard_cons_lt (U : Finset String) (s t : CrawlState) (url : String)
    (hU : url ∈ U) (hv : url ∉ s.visitedUrls)
    (ht : t.visitedUrls = url :: s.visitedUrls) :
    remCard U t < remCard U s := by
  apply Finset.card_lt_card
  rw [Finset.ssubset_iff_of_subset]
  · refine ⟨url, Finset.mem_filter.mpr ⟨hU, hv⟩, ?_⟩
    rw [Finset.mem_filter, ht]
    rintro ⟨-, h2⟩
    exact h2 (List.mem_cons_self _ _)
  · intro x hx
    rw [Finset.mem_filter] at hx ⊢
    refine ⟨hx.1, fun hmem => hx.2 ?_⟩
    rw [ht]
    exact List.mem_cons_of_mem _ hmem

theorem exploreList_fuel_eq_of (net : String → FetchResult) (U : Finset String)
    (k f1 f2 : Nat)
    (hP : ∀ url s, url ∈ U → remCard U s ≤ k →
      explorePage net f1 url s = explorePage net f2 url s) :
    ∀ ls s, (∀ l ∈ ls, l ∈ U) → remCard U s ≤ k →
      exploreList (explorePage net f1) ls s = exploreList (explorePage net f2) ls s := by
  intro ls
  induction ls with
  | nil => intro s _ _; rfl
  | cons l ls ih =>
    intro s hq hrem
    rw [exploreList_cons, exploreList_cons]
    by_cases hv : l ∈ s.visitedUrls
    · rw [if_pos hv, if_pos hv]
      exact ih s (fun x hx => hq x (List.mem_cons_of_mem _ hx)) hrem
    · rw [if_neg hv, if_neg hv]
      have heq := hP l s (hq l (List.mem_cons_self _ _)) hrem
      rw [heq]
      exact ih _ (fun x hx => hq x (List.mem_cons_of_mem _ hx))
        (le_trans (remCard_mono U s _ (explorePage_visited_mono net f2 l s)) hrem)

theorem explorePage_fuel_eq (net : String → FetchResult) (U : Finset String)
    (hnet : NetBounded net U) :
    ∀ k url s f1 f2, url ∈ U → remCard U s ≤ k → k ≤ f1 → k ≤ f2 →
      explorePage net f1 url s = explorePage net f2 url s := by
  intro k
  induction k with
  | zero =>
    intro url s f1 f2 hU hrem h1 h2
    have hv : url ∈ s.visitedUrls := by
      by_contra hv
      have hmem : url ∈ U.filter (fun u => u ∉ s.visitedUrls) :=
        Finset.mem_filter.mpr ⟨hU, hv⟩
      have hc : (U.filter (fun u => u ∉ s.visitedUrls)).card = 0 := Nat.le_zero.mp hrem
      rw [Finset.card_eq_zero] at hc
      rw [hc] at hmem
      exact absurd hmem (Finset.not_mem_empty url)
    rw [explorePage_visited net f1 url s hv, explorePage_visited net f2 url s hv]
  | succ k ih =>
    intro url s f1 f2 hU hrem h1 h2
    by_cases hv : url ∈ s.visitedUrls
    · rw [explorePage_visited net f1 url s hv, explorePage_visited net f2 url s hv]
    · obtain ⟨g1, rfl⟩ : ∃ g, f1 = g + 1 := ⟨f1 - 1, by omega⟩
      obtain ⟨g2, rfl⟩ : ∃ g, f2 = g + 1 := ⟨f2 - 1, by omega⟩
      cases hn : net url with
      | err => rw [explorePage_err net g1 url s hv hn, explorePage_err net g2 url s hv hn]
      | ok status page =>
        by_cases hst : status = 200
        · subst hst
          rw [explorePage_ok net g1 url s page hv hn, explorePage_ok net g2 url s page hv hn]
          apply exploreList_fuel_eq_of net U k g1 g2
          · intro url2 s2 hU2 hrem2
            exact ih url2 s2 g1 g2 hU2 hrem2 (by omega) (by omega)
          · exact fun l hl => hnet url page hn l hl
          · have hlt := remCard_cons_lt U s
              { visitAndFetch url s with
                allWireframes := s.allWireframes ++ parseWireframes page (some url) }
              url hU hv rfl
            omega
        · rw [explorePage_badStatus net g1 url s status page hv hn hst,
            explorePage_badStatus net g2 url s status page hv hn hst]

theorem singleNet_bounded : NetBounded singleNet {baseUrl} := by
  intro url page h l hl
  by_cases hu : url = baseUrl
  · subst hu
    rw [singleNet, if_pos rfl] at h
    injection h with h1 h2
    subst h2
    have hempty : findLinksToExplore emptyPage baseUrl = [] := by decide
    rw [hempty] at hl
    exact absurd hl (List.not_mem_nil l)
  · rw [singleNet, if_neg hu] at h
    exact FetchResult.noConfusion h

/-! ## The claims -/

/-- C1: for every link graph (any `net`, hence also self-loops and mutual
cycles) and every run of `exploreAllPages`, each URL is fetched at most
once: the fetch log of the run is duplicate-free, because a URL enters the
visited set before its fetch and before its outbound links are scheduled,
and the visited set only grows. -/
theorem c1_each_url_fetched_at_most_once (net : String → FetchResult) (fuel : Nat) :
    (exploreAllPages net fuel).fetchLog.Nodup :=
  (explorePage_fetchInv net fuel baseUrl initialState
    ⟨List.nodup_nil, fun u hu => absurd hu (List.not_mem_nil u)⟩).1

/-- C2: over any finite reachable link graph (a finite universe `U`
containing the root and closed under link discovery), the crawl terminates:
the result of `exploreAllPages` is already stable at fuel `U.card + 1`, so
the recursion depth is bounded by the number of distinct reachable URLs and
the run with any larger fuel computes the same final state. -/
theorem c2_crawl_terminates_fuel_stable (net : String → FetchResult) (U : Finset String)
    (hnet : NetBounded net U) (hroot : baseUrl ∈ U) (fuel : Nat)
    (hfuel : U.card + 1 ≤ fuel) :
    exploreAllPages net fuel = exploreAllPages net (U.card + 1) := by
  refine explorePage_fuel_eq net U hnet (U.card + 1) baseUrl initialState fuel (U.card + 1)
    hroot ?_ hfuel le_rfl
  have h := Finset.card_filter_le U (fun u => u ∉ initialState.visitedUrls)
  simp only [remCard]
  omega

theorem c2_crawl_terminates_witness :
    exploreAllPages singleNet 3 = exploreAllPages singleNet 2 := by
  have h := c2_crawl_terminates_fuel_stable singleNet {baseUrl} singleNet_bounded
    (Finset.mem_singleton_self baseUrl) 3 (by rw [Finset.card_singleton]; omega)
  rw [Finset.card_singleton] at h
  exact h

/-- C3 (counterexample): the code's domain check is substring containment,
not host matching: the URL `https://gytx.dev.evil.com/a/`, whose host is
`gytx.dev.evil.com` and not `gytx.dev`, is fetched during a run, so a URL
whose host does not match the crawl domain can be fetched. -/
theorem c3_host_isolation_counterexample :
    "https://gytx.dev.evil.com/a/" ∈ (exploreAllPages evilNet 2).fetchLog ∧
    hostOf "https://gytx.dev.evil.com/a/" ≠ "gytx.dev" := by decide

/-- C3 (amended): during every run of `exploreAllPages`, every fetched URL
other than the root contains the substring `gytx.dev` — the domain test of
`shouldExploreLink` and `isValidPaginationLink` is `includes('gytx.dev')`,
substring containment rather than host equality. -/
theorem c3_domain_substring_check (net : String → FetchResult) (fuel : Nat) (u : String)
    (hu : u ∈ (exploreAllPages net fuel).fetchLog) :
    u = baseUrl ∨ jsIncludes u "gytx.dev" = true :=
  Or.inr (fetchLog_domain net fuel u hu)

theorem c3_domain_substring_check_witness :
    baseUrl = baseUrl ∨ jsIncludes baseUrl "gytx.dev" = true :=
  c3_domain_substring_check (fun _ => FetchResult.err) 1 baseUrl (by decide)

/-- C4 (counterexample): the cross-domain asset link
`https://otherhost.com/image.png` is never fetched, but it IS added to the
asset inventory: `parseWireframes` applies no domain check, so the claim
that such a link is "never added to the asset inventory" fails. -/
theorem c4_cross_domain_asset_counterexample :
    "https://otherhost.com/image.png" ∈
      ((exploreAllPages otherHostNet 2).allWireframes.map (fun w => w.url)) ∧
    "https://otherhost.com/image.png" ∉ (exploreAllPages otherHostNet 2).fetchLog := by
  decide

/-- C4 (amended): a link whose resolved URL does not contain `gytx.dev` is
never fetched (the domain gate guards exploration and pagination), but a
cross-domain anchor whose `href` contains a dot and matches the asset
criteria is still recorded in the inventory: asset recognition has no
domain gate. -/
theorem c4_cross_domain_fetch_vs_inventory :
    (∀ (net : String → FetchResult) (fuel : Nat) (u : String),
        jsIncludes u "gytx.dev" = false → u ∉ (exploreAllPages net fuel).fetchLog) ∧
    (∀ (page : Page) (a : AnchorEl) (href : String) (sourceUrl : Option String),
        a ∈ page.anchors → a.href = some href → jsIncludes href "." = true →
        isWireframeFile href = true →
        mkAnchorRecord a href sourceUrl ∈ parseWireframes page sourceUrl) := by
  constructor
  · intro net fuel u hu hmem
    have hd := fetchLog_domain net fuel u hmem
    rw [hd] at hu
    exact absurd hu (by decide)
  · intro page a href sourceUrl ha hhref hdot hwf
    rw [parseWireframes, List.mem_append]
    left
    rw [parseWireframesAnchors, List.mem_filterMap]
    refine ⟨a, ha, ?_⟩
    rw [hhref]
    simp [hdot, hwf]

theorem c4_cross_domain_fetch_vs_inventory_witness :
    "https://x.com/a" ∉ (exploreAllPages (fun _ => FetchResult.err) 1).fetchLog :=
  c4_cross_domain_fetch_vs_inventory.1 (fun _ => FetchResult.err) 1 "https://x.com/a"
    (by decide)

/-- C5: `isWireframeFile` accepts a URL exactly when its lowercased form
contains one of the extensions `.png .jpg .jpeg .gif .svg .pdf` OR one of
the keywords `wireframe mockup design ui ux screen pog`: extension match
alone suffices and keyword match alone suffices (logical OR). -/
theorem c5_asset_candidate_iff (url : String) :
    isWireframeFile url = true ↔
      ((∃ ext ∈ wireframeExtensions, jsIncludes (jsToLower url) ext = true) ∨
       (∃ kw ∈ wireframeKeywords ++ ["pog"], jsIncludes (jsToLower url) kw = true)) := by
  simp only [isWireframeFile, Bool.or_eq_true, List.any_eq_true]
  constructor
  · rintro (⟨e, he, hinc⟩ | ⟨k, hk, hko⟩)
    · exact Or.inl ⟨e, he, hinc⟩
    · cases hko with
      | inl h => exact Or.inr ⟨k, List.mem_append_left _ hk, h⟩
      | inr h => exact Or.inr ⟨"pog", List.mem_append_right _ (by decide), h⟩
  · rintro (⟨e, he, hinc⟩ | ⟨k, hk, hinc⟩)
    · exact Or.inl ⟨e, he, hinc⟩
    · right
      rw [List.mem_append] at hk
      cases hk with
      | inl h => exact ⟨k, h, Or.inl hinc⟩
      | inr h =>
        rw [List.mem_singleton] at h
        subst h
        exact ⟨"wireframe", by decide, Or.inr hinc⟩

/-- C6 (counterexample): an asset discovered through an image-source
attribute is NOT classified by extension: the `<img src="spec.pdf">` record
produced by a run has kind `image`, although the URL contains `.pdf` and
`getFileType` would classify it as `page` (the spec's `Document`). -/
theorem c6_img_pdf_counterexample :
    ((exploreAllPages pdfImgNet 1).allWireframes.map (fun w => w.type) = [FileType.image]) ∧
    jsIncludes (jsToLower "spec.pdf") ".pdf" = true ∧
    getFileType "spec.pdf" = FileType.page := by decide

/-- C6 (amended): anchor-discovered assets get their kind from
`getFileType` of the raw `href` (image extensions → `image`, otherwise
`.pdf` → `page`, otherwise `unknown`), but image-source-discovered assets
always get the constant kind `image`, regardless of extension. -/
theorem c6_kind_assignment :
    (∀ (page : Page) (sourceUrl : Option String) (w : WireframeInfo),
        w ∈ parseWireframesImgs page sourceUrl → w.type = FileType.image) ∧
    (∀ (page : Page) (sourceUrl : Option String) (w : WireframeInfo),
        w ∈ parseWireframesAnchors page sourceUrl →
          ∃ href, w.type = getFileType href ∧ ∃ a ∈ page.anchors, a.href = some href) := by
  constructor
  · intro page sourceUrl w hw
    rw [parseWireframesImgs, List.mem_filterMap] at hw
    obtain ⟨img, hi, hf⟩ := hw
    cases hjt : jsTruthy img.src with
    | none => rw [hjt] at hf; simp at hf
    | some src =>
      rw [hjt] at hf
      by_cases hwf : isWireframeFile src = true
      · simp only [hwf, if_true, Option.some.injEq] at hf
        rw [← hf]
        rfl
      · simp [hwf] at hf
  · intro page sourceUrl w hw
    rw [parseWireframesAnchors, List.mem_filterMap] at hw
    obtain ⟨a, ha, hf⟩ := hw
    cases hh : a.href with
    | none => rw [hh] at hf; simp at hf
    | some href =>
      rw [hh] at hf
      by_cases hdot : jsIncludes href "." = true
      · by_cases hwf : isWireframeFile href = true
        · simp only [hdot, hwf, if_true, Option.some.injEq] at hf
          refine ⟨href, ?_, a, ha, hh⟩
          rw [← hf]
          rfl
        · simp [hdot, hwf] at hf
      · simp [hdot] at hf

theorem c6_kind_assignment_witness :
    (mkImgRecord pdfImgEl "spec.pdf" (some baseUrl)).type = FileType.image :=
  c6_kind_assignment.1 pdfImgPage (some baseUrl) _ (by decide)

/-- C7 (counterexample): `resolveUrl` with the explicitly given empty base
string does not concatenate the given base, contrary to the claim's
"otherwise returns base concatenated with reference": JS falsiness makes an
empty base fall back to the configured root URL. -/
theorem c7_empty_base_counterexample :
    resolveUrl "a.png" (some "") ≠ "" ++ "a.png" ∧
    resolveUrl "a.png" (some "") = baseUrl ++ "a.png" := by decide

/-- C7 (amended): `resolveUrl` returns the reference unchanged when it
starts with `http` (hence for any `http`/`https` scheme prefix); joins the
site origin `https://gytx.dev` when the reference starts with `/`; and
otherwise concatenates the given base, falling back to the configured root
URL when the base is missing OR empty.  It is a total function (never
raises). -/
theorem c7_resolve_cases (reference : String) (base : Option String) :
    (jsStartsWith reference "http" = true → resolveUrl reference base = reference) ∧
    (jsStartsWith reference "http" = false → jsStartsWith reference "/" = true →
      resolveUrl reference base = "https://gytx.dev" ++ reference) ∧
    (∀ b, jsStartsWith reference "http" = false → jsStartsWith reference "/" = false →
      base = some b → b ≠ "" → resolveUrl reference base = b ++ reference) ∧
    (jsStartsWith reference "http" = false → jsStartsWith reference "/" = false →
      (base = none ∨ base = some "") → resolveUrl reference base = baseUrl ++ reference) := by
  refine ⟨?_, ?_, ?_, ?_⟩
  · intro h
    simp [resolveUrl, h]
  · intro h1 h2
    simp [resolveUrl, h1, h2]
  · intro b h1 h2 hb hbne
    subst hb
    simp [resolveUrl, h1, h2, jsOrDefault, hbne]
  · intro h1 h2 hb
    cases hb with
    | inl hb => subst hb; simp [resolveUrl, h1, h2, jsOrDefault]
    | inr hb => subst hb; simp [resolveUrl, h1, h2, jsOrDefault]

theorem c7_resolve_cases_witness :
    resolveUrl "https://gytx.dev/a.png" (some baseUrl) = "https://gytx.dev/a.png" :=
  (c7_resolve_cases "https://gytx.dev/a.png" (some baseUrl)).1 (by decide)

/-- C8 (counterexample): classification is not mutually exclusive: the
anchor `ui.html` (keyword `ui`, page extension `.html`) resolves to a URL
that is BOTH scheduled for exploration by `findLinksToExplore` and recorded
in the asset inventory by `parseWireframes`, so a URL can be
double-classified as asset and followable page. -/
theorem c8_double_classification_counterexample :
    "https://gytx.dev/wareframes/pog_up_wareframes/ui.html" ∈
      findLinksToExplore uiHtmlPage baseUrl ∧
    "https://gytx.dev/wareframes/pog_up_wareframes/ui.html" ∈
      (parseWireframes uiHtmlPage (some baseUrl)).map (fun w => w.url) := by decide

/-- C8 (amended): every URL scheduled for exploration passed
`shouldExploreLink` or `isValidPaginationLink`, and the per-page scheduled
list is duplicate-free after `[...new Set(...)]`; asset recording is
performed independently by `parseWireframes` and may overlap with
scheduling. -/
theorem c8_schedule_gate_and_dedup :
    (∀ (page : Page) (currentUrl : String), (findLinksToExplore page currentUrl).Nodup) ∧
    (∀ (page : Page) (currentUrl : String) (l : String),
        l ∈ findLinksToExplore page currentUrl →
        shouldExploreLink l currentUrl = true ∨ isValidPaginationLink l currentUrl = true) :=
  ⟨fun page currentUrl => jsSetDedup_nodup _, findLinksToExplore_gate⟩

theorem c8_schedule_gate_and_dedup_witness :
    shouldExploreLink "https://gytx.dev/wareframes/pog_up_wareframes/ui.html" baseUrl = true ∨
    isValidPaginationLink "https://gytx.dev/wareframes/pog_up_wareframes/ui.html" baseUrl
      = true :=
  c8_schedule_gate_and_dedup.2 uiHtmlPage baseUrl _ (by decide)

/-- C9: a failed fetch (transport error / timeout, or a non-200 status) is
non-fatal: `explorePage` returns normally with the URL marked visited and
logged, the asset inventory unchanged, and when the failing URL heads a
frontier list, the rest of the frontier is still processed from that
state. -/
theorem c9_fetch_failure_nonfatal (net : String → FetchResult) (fuel : Nat) (url : String)
    (s : CrawlState) (hv : url ∉ s.visitedUrls)
    (hf : net url = FetchResult.err ∨
      ∃ status page, net url = FetchResult.ok status page ∧ status ≠ 200) :
    explorePage net (fuel + 1) url s =
      { visitedUrls := url :: s.visitedUrls, allWireframes := s.allWireframes,
        fetchLog := s.fetchLog ++ [url] } ∧
    ∀ ls, exploreList (explorePage net (fuel + 1)) (url :: ls) s =
      exploreList (explorePage net (fuel + 1)) ls
        { visitedUrls := url :: s.visitedUrls, allWireframes := s.allWireframes,
          fetchLog := s.fetchLog ++ [url] } := by
  have h1 : explorePage net (fuel + 1) url s =
      { visitedUrls := url :: s.visitedUrls, allWireframes := s.allWireframes,
        fetchLog := s.fetchLog ++ [url] } := by
    cases hf with
    | inl h =>
      rw [explorePage_err net fuel url s hv h]
      rfl
    | inr h =>
      obtain ⟨status, page, hn, hst⟩ := h
      rw [explorePage_badStatus net fuel url s status page hv hn hst]
      rfl
  refine ⟨h1, fun ls => ?_⟩
  rw [exploreList_cons, if_neg hv, h1]

theorem c9_fetch_failure_nonfatal_witness :
    explorePage (fun _ => FetchResult.err) 1 baseUrl initialState =
      { visitedUrls := [baseUrl], allWireframes := [], fetchLog := [baseUrl] } :=
  (c9_fetch_failure_nonfatal (fun _ => FetchResult.err) 0 baseUrl initialState
    (by decide) (Or.inl rfl)).1

/-- C10: an anchor contributes an asset record only when its `href`
contains a `.` (the selector is `a[href*="."]`): every anchor-derived
record comes from a dotted `href` that passed `isWireframeFile`; an
image-source, by contrast, is recorded whenever its truthy `src` passes
`isWireframeFile`, with no dot requirement. -/
theorem c10_anchor_dot_restriction :
    (∀ (page : Page) (sourceUrl : Option String) (w : WireframeInfo),
        w ∈ parseWireframesAnchors page sourceUrl →
          ∃ a href, a ∈ page.anchors ∧ a.href = some href ∧ jsIncludes href "." = true ∧
            isWireframeFile href = true ∧ w = mkAnchorRecord a href sourceUrl) ∧
    (∀ (page : Page) (sourceUrl : Option String) (img : ImgEl) (src : String),
        img ∈ page.images → img.src = some src → src ≠ "" → isWireframeFile src = true →
        mkImgRecord img src sourceUrl ∈ parseWireframesImgs page sourceUrl) := by
  constructor
  · intro page sourceUrl w hw
    rw [parseWireframesAnchors, List.mem_filterMap] at hw
    obtain ⟨a, ha, hf⟩ := hw
    cases hh : a.href with
    | none => rw [hh] at hf; simp at hf
    | some href =>
      rw [hh] at hf
      by_cases hdot : jsIncludes href "." = true
      · by_cases hwf : isWireframeFile href = true
        · simp only [hdot, hwf, if_true, Option.some.injEq] at hf
          exact ⟨a, href, ha, hh, hdot, hwf, hf.symm⟩
        · simp [hdot, hwf] at hf
      · simp [hdot] at hf
  · intro page sourceUrl img src hi hsrc hne hwf
    rw [parseWireframesImgs, List.mem_filterMap]
    refine ⟨img, hi, ?_⟩
    rw [hsrc]
    simp [jsTruthy, hne, hwf]

theorem c10_anchor_dot_restriction_witness :
    mkImgRecord dotlessImgEl "ui-screen" (some baseUrl) ∈
      parseWireframesImgs { anchors := [], images := [dotlessImgEl] } (some baseUrl) :=
  c10_anchor_dot_restriction.2 { anchors := [], images := [dotlessImgEl] } (some baseUrl)
    dotlessImgEl "ui-screen" (by decide) rfl (by decide) (by decide)
